import Mathlib

/-!
Verification of the simple_xml repository (src/include/xml_parse.h and
src/include/xml_dom.h) against its natural-language specification.

The parser is embedded shallowly:

* `XmlState` embeds the C struct `xml_state`.  The C struct stores the whole
  buffer plus an integer index `pos`; the parser only ever reads the
  characters at `pos` and `pos+1` and only moves forward, and `pos` never
  exceeds the buffer size (every `xml_advance` is guarded by a successful
  peek or an end-of-input test).  We therefore keep the still-unread suffix
  `buffer[pos ..]` as a list of characters; `xml_eof` (`pos == size`)
  becomes `rest = []`.
* The C callbacks (`xml_callbacks`) only accumulate data for the user and
  cannot influence the scan, so a parse is modelled as returning the list
  of events (`XmlEvent`) it fires, in order; the DOM builder of
  `xml_dom.h` is then a fold over that event list, exactly mirroring the
  order in which the C callbacks run.
* `xml_error` prints a message and throws; a raised error is the
  `.error msg` constructor.
* The while-loops of `xml_read_header`, `xml_read_tag` and
  `xml_read_document` do not advance the input on some paths (and the
  C functions then genuinely fail to terminate), so those functions take a
  fuel argument; exhausted fuel is the `.oof` ("out of fuel") result, and a
  run that returns `.oof` for every fuel is a non-terminating C run.
  The purely lexical loops always advance and are defined by structural
  recursion on the remaining input, with no fuel.
-/

set_option maxRecDepth 20000

namespace SimpleXml

/-- Parser state, embedding `xml_state` of src/include/xml_parse.h:
`rest` is the suffix of the buffer from the current position, and
`line_number` / `column_number` are the diagnostic counters (C `int`s,
modelled as `Int`). -/
structure XmlState where
  rest : List Char
  line_number : Int
  column_number : Int
  deriving DecidableEq, Repr

/-- Embeds `xml_eof`: the position has reached the end of the buffer. -/
def xml_eof (s : XmlState) : Bool :=
  s.rest.isEmpty

/-- Embeds `xml_is_space` (C `isspace` in the default locale: space, tab,
newline, vertical tab, form feed, carriage return). -/
def xml_is_space (c : Char) : Bool :=
  c == ' ' || c == '\t' || c == '\n' || c == '\x0b' || c == '\x0c' || c == '\r'

/-- Embeds `xml_is_digit` (C `isdigit`). -/
def xml_is_digit (c : Char) : Bool :=
  decide (48 ≤ c.toNat) && decide (c.toNat ≤ 57)

/-- Embeds `xml_is_alpha` (C `isalpha` in the default locale). -/
def xml_is_alpha (c : Char) : Bool :=
  (decide (65 ≤ c.toNat) && decide (c.toNat ≤ 90)) ||
  (decide (97 ≤ c.toNat) && decide (c.toNat ≤ 122))

/-- Embeds `xml_is_valid_name_char`: letter, digit or underscore. -/
def xml_is_valid_name_char (c : Char) : Bool :=
  xml_is_alpha c || xml_is_digit c || c == '_'

/-- Embeds `xml_peek`: the character `offset` places ahead of the current
position, or the fatal out-of-range error.  (The C message interpolates the
index and buffer size; no property below depends on that text.)  The C
default argument is `offset = 0`; call sites pass 0 or 1 explicitly. -/
def xml_peek (s : XmlState) (offset : Nat) : Except String Char :=
  match s.rest.get? offset with
  | some c => .ok c
  | none => .error "xml_peek(): tried to accces buffer index out of valid range"

/-- Embeds `xml_advance`: consume one character, bumping the line counter
and resetting the column on a newline, bumping the column otherwise.
`xml_advance` is only ever invoked when `pos < size` (i.e. `rest ≠ []`);
the `[]` equation is the (unreachable) identity. -/
def xml_advance : XmlState → XmlState
  | ⟨[], l, k⟩ => ⟨[], l, k⟩
  | ⟨c :: rest, l, k⟩ =>
    ⟨rest, if c = '\n' then l + 1 else l, if c = '\n' then 0 else k + 1⟩

/-- Embeds `xml_match`: peek, fail if the character differs from `m`
(message interpolating expected, actual and the line number as the C
`printf` format does), otherwise advance. -/
def xml_match (s : XmlState) (m : Char) : Except String XmlState :=
  match xml_peek s 0 with
  | .error e => .error e
  | .ok c =>
    if c ≠ m then
      .error ("xml_match(), expected " ++ String.mk [m] ++ ", got " ++ String.mk [c]
            ++ " at input line " ++ toString s.line_number ++ "\n")
    else .ok (xml_advance s)

/-- The loop of `xml_eat_space`, recursing on the remaining characters
(each iteration performs `xml_advance`, inlined here — note
`xml_advance ⟨c :: rest, l, k⟩` is exactly the state this recurses on —
so that the recursion is structural). -/
def xml_eat_space_go : List Char → Int → Int → XmlState
  | [], l, k => ⟨[], l, k⟩
  | c :: rest, l, k =>
    if xml_is_space c then
      xml_eat_space_go rest (if c = '\n' then l + 1 else l) (if c = '\n' then 0 else k + 1)
    else ⟨c :: rest, l, k⟩

/-- Embeds `xml_eat_space`: advance while not at end of input and the
current character is whitespace. -/
def xml_eat_space (s : XmlState) : XmlState :=
  xml_eat_space_go s.rest s.line_number s.column_number

/-- The accumulation loop of `xml_parse_string`: gather characters until
end of input or a closing quote, then run the trailing
`xml_match(state, double-quote)` and `str.push_back(0)` exactly as the C
function does after its loop (at end of input the match raises the peek
error; note the C code really does append a NUL character to the
`std::string` it returns). -/
def xml_parse_string_go (str : String) : List Char → Int → Int → Except String (String × XmlState)
  | [], l, k =>
    match xml_match ⟨[], l, k⟩ '"' with
    | .error e => .error e
    | .ok s2 => .ok (str.push '\x00', s2)
  | c :: rest, l, k =>
    if c = '"' then
      match xml_match ⟨c :: rest, l, k⟩ '"' with
      | .error e => .error e
      | .ok s2 => .ok (str.push '\x00', s2)
    else
      xml_parse_string_go (str.push c) rest (if c = '\n' then l + 1 else l)
        (if c = '\n' then 0 else k + 1)

/-- Embeds `xml_parse_string`: eat whitespace, match the opening quote,
then run the accumulation loop (which also performs the closing match and
the final NUL `push_back`). -/
def xml_parse_string (s : XmlState) : Except String (String × XmlState) :=
  let s := xml_eat_space s
  match xml_match s '"' with
  | .error e => .error e
  | .ok s => xml_parse_string_go "" s.rest s.line_number s.column_number

/-- The accumulation loop of `xml_read_name`: gather characters while they
are valid name characters (`xml_advance` inlined, as in
`xml_eat_space_go`). -/
def xml_read_name_go (name : String) : List Char → Int → Int → String × XmlState
  | [], l, k => (name, ⟨[], l, k⟩)
  | c :: rest, l, k =>
    if xml_is_valid_name_char c then
      xml_read_name_go (name.push c) rest (if c = '\n' then l + 1 else l)
        (if c = '\n' then 0 else k + 1)
    else (name, ⟨c :: rest, l, k⟩)

/-- Embeds `xml_read_name`: eat whitespace, require an alphabetic first
character (peeking, so end of input raises the peek error), then
accumulate name characters. -/
def xml_read_name (s : XmlState) : Except String (String × XmlState) :=
  let s := xml_eat_space s
  match xml_peek s 0 with
  | .error e => .error e
  | .ok c =>
    if xml_is_alpha c = false then
      .error ("xml_read_name(), expected an xml name, got '" ++ String.mk [c]
            ++ "' at input line " ++ toString s.line_number ++ "\n")
    else .ok (xml_read_name_go "" s.rest s.line_number s.column_number)

/-- The accumulation loop of `xml_read_text`: gather characters until end
of input or a < character (`xml_advance` inlined). -/
def xml_read_text_go (text : String) : List Char → Int → Int → String × XmlState
  | [], l, k => (text, ⟨[], l, k⟩)
  | c :: rest, l, k =>
    if c = '<' then (text, ⟨c :: rest, l, k⟩)
    else
      xml_read_text_go (text.push c) rest (if c = '\n' then l + 1 else l)
        (if c = '\n' then 0 else k + 1)

/-- Embeds `xml_read_text`. -/
def xml_read_text (s : XmlState) : String × XmlState :=
  xml_read_text_go "" s.rest s.line_number s.column_number

/-- Embeds `xml_read_closing_tag`: match <, match /, read the name, match >. -/
def xml_read_closing_tag (s : XmlState) : Except String (String × XmlState) :=
  match xml_match s '<' with
  | .error e => .error e
  | .ok s =>
    match xml_match s '/' with
    | .error e => .error e
    | .ok s =>
      match xml_read_name s with
      | .error e => .error e
      | .ok (name, s) =>
        match xml_match s '>' with
        | .error e => .error e
        | .ok s => .ok (name, s)

/-- The accumulation loop of `xml_read_comment`, with the one-character
lookback flag `hyphen`.  A hyphen with the flag clear sets the flag and
consumes the character without appending it; a hyphen with the flag set
consumes it and matches the closing > (raising the match error if the
next character is not >); any other character is appended and clears the
flag.  If the loop exhausts the input, the C function falls off the loop
and returns an empty `std::string`, discarding what it accumulated. -/
def xml_read_comment_go (comment : String) (hyphen : Bool) :
    List Char → Int → Int → Except String (String × XmlState)
  | [], l, k => .ok ("", ⟨[], l, k⟩)
  | c :: rest, l, k =>
    if c = '-' && !hyphen then
      xml_read_comment_go comment true rest (if c = '\n' then l + 1 else l)
        (if c = '\n' then 0 else k + 1)
    else if c = '-' && hyphen then
      match xml_match (xml_advance ⟨c :: rest, l, k⟩) '>' with
      | .error e => .error e
      | .ok s2 => .ok (comment, s2)
    else
      xml_read_comment_go (comment.push c) false rest (if c = '\n' then l + 1 else l)
        (if c = '\n' then 0 else k + 1)

/-- Embeds `xml_read_comment`: match the four characters of the opening
delimiter, then run the accumulation loop. -/
def xml_read_comment (s : XmlState) : Except String (String × XmlState) :=
  match xml_match s '<' with
  | .error e => .error e
  | .ok s =>
    match xml_match s '!' with
    | .error e => .error e
    | .ok s =>
      match xml_match s '-' with
      | .error e => .error e
      | .ok s =>
        match xml_match s '-' with
        | .error e => .error e
        | .ok s => xml_read_comment_go "" false s.rest s.line_number s.column_number

/-- One callback firing of the `xml_callbacks` structure, in the order the
C parser invokes them: `begin_tag`, `end_tag`, `tag_text`, `comment`,
`attribute`. -/
inductive XmlEvent where
  | beginTag : String → XmlEvent
  | endTag : String → XmlEvent
  | text : String → XmlEvent
  | comment : String → XmlEvent
  | attribute : String → String → XmlEvent
  deriving DecidableEq, Repr

/-- Result of a fueled parsing function: normal return (value, final
state, the events fired during the call, in order), a raised
`xml_error`, or exhausted fuel (`oof`; a run returning `oof` at every
fuel is a C run that never terminates). -/
inductive PRes (α : Type) where
  | ok : α → XmlState → List XmlEvent → PRes α
  | error : String → PRes α
  | oof : PRes α
  deriving DecidableEq, Repr

/-- The attribute loop of `xml_read_tag` (the first while-loop, lines
385-422 of src/include/xml_parse.h).  Returns `true` when the loop was
left for the tag body (a bare > was matched, or end of input made the
while-condition fail so that control falls through to the body loop) and
`false` when the whole tag was closed by /> (the loop's early `return`,
after firing `end_tag` and eating trailing space).  An iteration that
matches no branch re-runs the loop on an unchanged state, so only fuel
decreases — exactly the C infinite loop. -/
def xml_read_tag_attrs : Nat → String → XmlState → PRes Bool
  | 0, _, _ => .oof
  | fuel + 1, tag_name, s =>
    if s.rest.isEmpty then .ok true s []
    else
      let s := xml_eat_space s
      match xml_peek s 0 with
      | .error e => .error e
      | .ok c =>
        if xml_is_alpha c then
          match xml_read_name s with
          | .error e => .error e
          | .ok (attrib_name, s) =>
            let s := xml_eat_space s
            match xml_match s '=' with
            | .error e => .error e
            | .ok s =>
              match xml_parse_string s with
              | .error e => .error e
              | .ok (attrib_value, s) =>
                match xml_read_tag_attrs fuel tag_name s with
                | .ok b s2 evs => .ok b s2 (.attribute attrib_name attrib_value :: evs)
                | .error e => .error e
                | .oof => .oof
        else if c = '>' then
          match xml_match s '>' with
          | .error e => .error e
          | .ok s => .ok true s []
        else if c = '/' then
          match xml_peek s 1 with
          | .error e => .error e
          | .ok c1 =>
            if c1 = '>' then
              match xml_match s '/' with
              | .error e => .error e
              | .ok s =>
                match xml_match s '>' with
                | .error e => .error e
                | .ok s => .ok false (xml_eat_space s) [.endTag tag_name]
            else xml_read_tag_attrs fuel tag_name s
        else xml_read_tag_attrs fuel tag_name s

mutual

/-- Embeds `xml_read_tag` (src/include/xml_parse.h lines 369-455): eat
space, match <, read the tag name, fire `begin_tag`, run the attribute
loop, and unless the tag self-closed run the body loop. -/
def xml_read_tag : Nat → XmlState → PRes Unit
  | 0, _ => .oof
  | fuel + 1, s =>
    let s := xml_eat_space s
    match xml_match s '<' with
    | .error e => .error e
    | .ok s =>
      match xml_read_name s with
      | .error e => .error e
      | .ok (tag_name, s) =>
        match xml_read_tag_attrs fuel tag_name s with
        | .error e => .error e
        | .oof => .oof
        | .ok body s evs =>
          if body then
            match xml_read_tag_body fuel tag_name s with
            | .error e => .error e
            | .oof => .oof
            | .ok _ s2 evs2 => .ok () s2 (.beginTag tag_name :: (evs ++ evs2))
          else .ok () s (.beginTag tag_name :: evs)

/-- The body loop of `xml_read_tag` (the second while-loop, lines
424-454).  Returns `true` when the loop was left by reading a matching
closing tag (after firing `end_tag`) and `false` when end of input made
the while-condition fail, so the tag was never closed. -/
def xml_read_tag_body : Nat → String → XmlState → PRes Bool
  | 0, _, _ => .oof
  | fuel + 1, tag_name, s =>
    if s.rest.isEmpty then .ok false s []
    else
      let s := xml_eat_space s
      match xml_peek s 0 with
      | .error e => .error e
      | .ok c =>
        if c = '<' then
          match xml_peek s 1 with
          | .error e => .error e
          | .ok c1 =>
            if c1 = '/' then
              match xml_read_closing_tag s with
              | .error e => .error e
              | .ok (close_name, s) =>
                if close_name ≠ tag_name then
                  .error ("xml_read_tag(), expected closing name (" ++ close_name
                        ++ ") to match tag name (" ++ tag_name ++ ") at input line "
                        ++ toString s.line_number ++ "\n")
                else .ok true s [.endTag tag_name]
            else if c1 = '!' then
              match xml_read_comment s with
              | .error e => .error e
              | .ok (com, s) =>
                match xml_read_tag_body fuel tag_name s with
                | .error e => .error e
                | .oof => .oof
                | .ok b s2 evs => .ok b s2 (.comment com :: evs)
            else
              match xml_read_tag fuel s with
              | .error e => .error e
              | .oof => .oof
              | .ok _ s evs =>
                match xml_read_tag_body fuel tag_name s with
                | .error e => .error e
                | .oof => .oof
                | .ok b s2 evs2 => .ok b s2 (evs ++ evs2)
        else
          match xml_read_text s with
          | (text, s) =>
            match xml_read_tag_body fuel tag_name s with
            | .error e => .error e
            | .oof => .oof
            | .ok b s2 evs => .ok b s2 (.text text :: evs)

end

/-- The attribute loop of `xml_read_header` (lines 337-359).  An
iteration whose current character is neither alphabetic nor the start of
the ?> terminator re-runs the loop on an unchanged state (the C infinite
loop); end of input makes the while-condition fail and the function
returns normally. -/
def xml_read_header_loop : Nat → XmlState → PRes Unit
  | 0, _ => .oof
  | fuel + 1, s =>
    if s.rest.isEmpty then .ok () s []
    else
      let s := xml_eat_space s
      match xml_peek s 0 with
      | .error e => .error e
      | .ok c =>
        if xml_is_alpha c then
          match xml_read_name s with
          | .error e => .error e
          | .ok (_, s) =>
            let s := xml_eat_space s
            match xml_match s '=' with
            | .error e => .error e
            | .ok s =>
              match xml_parse_string s with
              | .error e => .error e
              | .ok (_, s) => xml_read_header_loop fuel s
        else if c = '?' then
          match xml_peek s 1 with
          | .error e => .error e
          | .ok c1 =>
            if c1 = '>' then
              match xml_match s '?' with
              | .error e => .error e
              | .ok s =>
                match xml_match s '>' with
                | .error e => .error e
                | .ok s => .ok () (xml_eat_space s) []
            else xml_read_header_loop fuel s
        else xml_read_header_loop fuel s

/-- Embeds `xml_read_header`: match the five characters of <?xml, then
run the attribute loop. -/
def xml_read_header (fuel : Nat) (s : XmlState) : PRes Unit :=
  match xml_match s '<' with
  | .error e => .error e
  | .ok s =>
    match xml_match s '?' with
    | .error e => .error e
    | .ok s =>
      match xml_match s 'x' with
      | .error e => .error e
      | .ok s =>
        match xml_match s 'm' with
        | .error e => .error e
        | .ok s =>
          match xml_match s 'l' with
          | .error e => .error e
          | .ok s => xml_read_header_loop fuel s

/-- The top-level loop of `xml_read_document` (lines 468-489).  The
`first` flag is threaded exactly as in the C code: it is initialised to
`true` by `xml_read_document` and never assigned afterwards, so the
"header tag midway through file" error is unreachable.  A < whose
following character is none of ?, ! or a letter re-runs the loop on an
unchanged state (the C infinite loop). -/
def xml_read_document_loop : Nat → Bool → XmlState → PRes Unit
  | 0, _, _ => .oof
  | fuel + 1, first, s =>
    if s.rest.isEmpty then .ok () s []
    else
      match xml_peek s 0 with
      | .error e => .error e
      | .ok c =>
        if c = '<' then
          match xml_peek s 1 with
          | .error e => .error e
          | .ok c1 =>
            if c1 = '?' then
              if !first then .error "encountered a header tag midway through file"
              else
                match xml_read_header fuel s with
                | .error e => .error e
                | .oof => .oof
                | .ok _ s _ => xml_read_document_loop fuel first (xml_eat_space s)
            else if c1 = '!' then
              match xml_read_comment s with
              | .error e => .error e
              | .ok (com, s) =>
                match xml_read_document_loop fuel first (xml_eat_space s) with
                | .error e => .error e
                | .oof => .oof
                | .ok u s2 evs => .ok u s2 (.comment com :: evs)
            else if xml_is_alpha c1 then
              match xml_read_tag fuel s with
              | .error e => .error e
              | .oof => .oof
              | .ok _ s evs =>
                match xml_read_document_loop fuel first (xml_eat_space s) with
                | .error e => .error e
                | .oof => .oof
                | .ok u s2 evs2 => .ok u s2 (evs ++ evs2)
            else xml_read_document_loop fuel first (xml_eat_space s)
        else .error "expected a < character\n"

/-- Embeds `xml_read_document` (lines 464-490): eat leading whitespace,
then run the top-level loop with `first = true`. -/
def xml_read_document (fuel : Nat) (s : XmlState) : PRes Unit :=
  xml_read_document_loop fuel true (xml_eat_space s)

/-- The initial parser state over a buffer, as set up by `xml_dom_parse`
(src/include/xml_dom.h line 770): position 0, line 0, column 0. -/
def xml_init (buffer : String) : XmlState :=
  ⟨buffer.data, 0, 0⟩

/-- Embeds the enum `xml_dom_entity_type` of src/include/xml_dom.h. -/
inductive XmlDomEntityType where
  | INVALID
  | DOCUMENT
  | TAG
  | ATTRIBUTE
  | COMMENT
  deriving DecidableEq, Repr

/-- Embeds the class `xml_dom_entity`: type, index within the parent's
child array (C `int`, `-1` before insertion), name, value, and the owned
child array.  The C `m_parent` back-pointer is not a field of the pure
tree: being a child of `p` is the structural fact `c ∈ p.m_child`, and
operations that need the parent (such as `next_child`) take it as an
explicit argument, exactly as the C asserts `child->m_parent == this`. -/
inductive XmlDomEntity where
  | mk (m_type : XmlDomEntityType) (m_index : Int) (m_name : String)
       (m_value : String) (m_child : List XmlDomEntity)

/-- The entity type field (C `get_type`). -/
def XmlDomEntity.m_type : XmlDomEntity → XmlDomEntityType
  | .mk t _ _ _ _ => t

/-- The stored index field. -/
def XmlDomEntity.m_index : XmlDomEntity → Int
  | .mk _ i _ _ _ => i

/-- The name field (C `get_name`). -/
def XmlDomEntity.m_name : XmlDomEntity → String
  | .mk _ _ n _ _ => n

/-- The value field (C `get_value`). -/
def XmlDomEntity.m_value : XmlDomEntity → String
  | .mk _ _ _ v _ => v

/-- The child array field. -/
def XmlDomEntity.m_child : XmlDomEntity → List XmlDomEntity
  | .mk _ _ _ _ cs => cs

/-- Embeds `num_children` (a C `int`). -/
def XmlDomEntity.num_children (p : XmlDomEntity) : Int :=
  (p.m_child.length : Int)

/-- The entity built by the default constructor: INVALID type, index -1. -/
def xml_dom_invalid : XmlDomEntity :=
  .mk .INVALID (-1) "" "" []

/-- Embeds `get_child`: asserts `index >= 0 && index < num_children()`
(a failed C `assert` aborts the program, modelled as `.error`; with
assertions disabled the access is out of bounds) and returns the child. -/
def XmlDomEntity.get_child (p : XmlDomEntity) (index : Int) : Except String XmlDomEntity :=
  if 0 ≤ index ∧ index < p.num_children then
    .ok (p.m_child.getD index.toNat xml_dom_invalid)
  else
    .error "xml_dom_entity::get_child(): assertion failed: index >= 0 && index < num_children()"

/-- Embeds `next_child(child)` (lines 396-401): when
`child->m_index >= 0 && child->m_index < num_children()-1`, return
`get_child(m_index + 1)`, else the NULL sentinel. -/
def XmlDomEntity.next_child (p child : XmlDomEntity) : Except String (Option XmlDomEntity) :=
  if 0 ≤ child.m_index ∧ child.m_index < p.num_children - 1 then
    (p.get_child (child.m_index + 1)).map some
  else .ok none

/-- Embeds `previous_child(child)` (lines 315-320).  The C guard is the
same `child->m_index >= 0 && child->m_index < num_children()-1` as in
`next_child`, but the body returns `get_child(m_index - 1)`. -/
def XmlDomEntity.previous_child (p child : XmlDomEntity) : Except String (Option XmlDomEntity) :=
  if 0 ≤ child.m_index ∧ child.m_index < p.num_children - 1 then
    (p.get_child (child.m_index - 1)).map some
  else .ok none

/-- The entity `e` with its index field overwritten (the
`child->m_index = num_children()` assignment inside `add_child`). -/
def XmlDomEntity.with_index : XmlDomEntity → Int → XmlDomEntity
  | .mk t _ n v cs, i => .mk t i n v cs

/-- Embeds `add_child` (lines 186-191): append `c` to the child array,
setting its index to the previous child count (its new position); the
`child->m_parent = this` assignment is the structural fact that the
result owns `c`. -/
def XmlDomEntity.add_child : XmlDomEntity → XmlDomEntity → XmlDomEntity
  | .mk t i n v cs, c => .mk t i n v (cs ++ [c.with_index (cs.length : Int)])

/-- Embeds `add_tag` (lines 146-153): a fresh entity (default
constructor, then `set_type(XML_DOM_TAG)` and `set_name`) added via
`add_child`.  The C method returns the new child pointer; the model
returns the updated parent, the child being its last element. -/
def XmlDomEntity.add_tag (p : XmlDomEntity) (name : String) : XmlDomEntity :=
  p.add_child (.mk .TAG (-1) name "" [])

/-- Embeds `add_attribute` (lines 160-168). -/
def XmlDomEntity.add_attribute (p : XmlDomEntity) (name value : String) : XmlDomEntity :=
  p.add_child (.mk .ATTRIBUTE (-1) name value [])

/-- Embeds `add_comment` (lines 174-181). -/
def XmlDomEntity.add_comment (p : XmlDomEntity) (comment : String) : XmlDomEntity :=
  p.add_child (.mk .COMMENT (-1) "" comment [])

/-- True when the child list contains a TAG entity; embeds the test
`first_child_tag() != NULL` used by the serializer (the C scan walks the
index-based sibling chain, which on index-consistent trees visits exactly
the list in order). -/
def xml_dom_has_child_tag (cs : List XmlDomEntity) : Bool :=
  cs.any (fun c => c.m_type == .TAG)

/-- The attribute run emitted by the serializer's first loop: one
space-name-equals-quoted-value group per ATTRIBUTE child, in child order
(the C loop walks `first_child_attribute` / `next_sibling_attribute`,
which on index-consistent trees is exactly the ATTRIBUTE sub-sequence of
the child list). -/
def xml_dom_stream_attrs : List XmlDomEntity → String
  | [] => ""
  | c :: rest =>
    (if c.m_type = .ATTRIBUTE then " " ++ c.m_name ++ "=\"" ++ c.m_value ++ "\"" else "")
      ++ xml_dom_stream_attrs rest

mutual

/-- Embeds the body of `operator<<(std::ostream&, xml_dom_entity&)`
(src/include/xml_dom.h lines 647-697; the operator is present in the
source only as a commented-out block, and is the serializer the spec
describes).  Emits the switch output for the entity, then the
non-ATTRIBUTE children in order, then the closing tag when the entity is
a TAG that did not self-close.  `std::endl` is a newline. -/
def xml_dom_stream_entity : XmlDomEntity → String
  | .mk t _ name value cs =>
    (match t with
     | .TAG =>
       "<" ++ name ++ xml_dom_stream_attrs cs ++
         (if xml_dom_has_child_tag cs = false ∧ value.length = 0 then " />\n"
          else ">" ++ value ++ "\n")
     | .COMMENT => "<!-- " ++ value ++ "-->\n"
     | .DOCUMENT => "<?xml version=\"1.0\"?>\n"
     | _ => "")
    ++ xml_dom_stream_children cs
    ++ (if t = .TAG ∧ (xml_dom_has_child_tag cs = true ∨ value.length > 0) then
          "</" ++ name ++ ">\n"
        else "")

/-- The serializer's child loop: stream every child whose type is not
ATTRIBUTE. -/
def xml_dom_stream_children : List XmlDomEntity → String
  | [] => ""
  | c :: rest =>
    (if c.m_type ≠ .ATTRIBUTE then xml_dom_stream_entity c else "")
      ++ xml_dom_stream_children rest

end

/-- Embeds the entry of `operator<<`: streaming a standalone ATTRIBUTE
entity raises `xml_error` ("Cannot stream attributes from DOM into file
directly"); otherwise the entity is rendered. -/
def xml_dom_stream (e : XmlDomEntity) : Except String String :=
  if e.m_type = .ATTRIBUTE then
    .error "Cannot stream attributes from DOM into file directly.\n"
  else .ok (xml_dom_stream_entity e)

/-- The DOM builder's construction stack (the `std::list` in
`xml_dom_parse`), represented as the Document root plus the path of
child indices leading to the current stack top: the C stack holds
pointers `[root, e1, ..., ek]` where each entity is a child of the
previous one, so it is exactly `root` plus this index path. -/
structure XmlDomBuilder where
  root : XmlDomEntity
  path : List Nat

/-- `add_child` performed on the entity at `path` inside `root` (the C
callbacks mutate `stack->back()` through its pointer; the pure model
rebuilds the tree along the path).  An out-of-range index leaves the
tree unchanged (unreachable: builder paths always address existing
children). -/
def xml_dom_attach : XmlDomEntity → List Nat → XmlDomEntity → XmlDomEntity
  | p, [], c => p.add_child c
  | .mk t i n v cs, idx :: rest, c =>
    .mk t i n v (cs.set idx (xml_dom_attach (cs.getD idx xml_dom_invalid) rest c))

/-- `set_value` performed on the entity at `path` inside `root`. -/
def xml_dom_set_value_at : XmlDomEntity → List Nat → String → XmlDomEntity
  | .mk t i n _ cs, [], value => .mk t i n value cs
  | .mk t i n v cs, idx :: rest, value =>
    .mk t i n v (cs.set idx (xml_dom_set_value_at (cs.getD idx xml_dom_invalid) rest value))

/-- Number of children of the entity at `path` inside `root` (the index
the next appended child will receive). -/
def xml_dom_child_count_at : XmlDomEntity → List Nat → Nat
  | p, [] => p.m_child.length
  | p, idx :: rest => xml_dom_child_count_at (p.m_child.getD idx xml_dom_invalid) rest

/-- One DOM-builder callback firing (src/include/xml_dom.h lines
705-759): `begin_tag` creates a TAG entity, adds it to the stack top and
pushes it; `end_tag` pops the stack — popping when only the Document
root remains would leave the C stack empty and the next `back()` or
`front()` undefined, modelled as `none`; `tag_text` sets the top's
value; `comment` and `attribute` add a child to the top without
pushing. -/
def xml_dom_step (b : XmlDomBuilder) : XmlEvent → Option XmlDomBuilder
  | .beginTag name =>
    some ⟨xml_dom_attach b.root b.path (.mk .TAG (-1) name "" []),
          b.path ++ [xml_dom_child_count_at b.root b.path]⟩
  | .endTag _ =>
    match b.path with
    | [] => none
    | _ => some ⟨b.root, b.path.dropLast⟩
  | .text t => some ⟨xml_dom_set_value_at b.root b.path t, b.path⟩
  | .comment c => some ⟨xml_dom_attach b.root b.path (.mk .COMMENT (-1) "" c []), b.path⟩
  | .attribute n v => some ⟨xml_dom_attach b.root b.path (.mk .ATTRIBUTE (-1) n v []), b.path⟩

/-- The builder consuming an event list in order (the callbacks fire
synchronously in document order, so the built tree is this fold). -/
def xml_dom_build : XmlDomBuilder → List XmlEvent → Option XmlDomBuilder
  | b, [] => some b
  | b, ev :: evs =>
    match xml_dom_step b ev with
    | none => none
    | some b2 => xml_dom_build b2 evs

/-- The root entity created by `xml_dom_parse` (default constructor then
`set_type(XML_DOM_DOCUMENT)`). -/
def xml_dom_new_document : XmlDomEntity :=
  .mk .DOCUMENT (-1) "" "" []

/-- Embeds `xml_dom_parse` (lines 765-782): parse the buffer with the
DOM callbacks and return the front of the stack (the Document root).
`none` covers a raised `xml_error`, exhausted fuel, and builder stack
underflow. -/
def xml_dom_parse (fuel : Nat) (buffer : String) : Option XmlDomEntity :=
  match xml_read_document fuel (xml_init buffer) with
  | .ok _ _ evs =>
    match xml_dom_build ⟨xml_dom_new_document, []⟩ evs with
    | some b => some b.root
    | none => none
  | _ => none

/-- The event list fired by a successful parse, the observable the event
claims speak about. -/
def pres_events : PRes Unit → Option (List XmlEvent)
  | .ok _ _ evs => some evs
  | _ => none

/-- The stack of currently-open tag names after processing an event
list, starting from `st` (innermost first): `beginTag` pushes,
`endTag` pops only a matching top (`none` on a mismatch or an empty
stack), other events leave the stack alone.  `xml_tag_stack [] evs ≠
none` is exactly proper nesting plus the prefix property that EndTag
events never outnumber BeginTag events. -/
def xml_tag_stack : List String → List XmlEvent → Option (List String)
  | st, [] => some st
  | st, .beginTag n :: evs => xml_tag_stack (n :: st) evs
  | st, .endTag n :: evs =>
    match st with
    | [] => none
    | t :: st2 => if t = n then xml_tag_stack st2 evs else none
  | st, .text _ :: evs => xml_tag_stack st evs
  | st, .comment _ :: evs => xml_tag_stack st evs
  | st, .attribute _ _ :: evs => xml_tag_stack st evs

/-- Index consistency of a DOM tree: every child's stored `m_index`
field equals its position in its parent's child array, recursively. -/
inductive XmlDomIndexOk : XmlDomEntity → Prop where
  | mk : ∀ (t : XmlDomEntityType) (i : Int) (n v : String) (cs : List XmlDomEntity),
      (∀ j, j < cs.length → (cs.getD j xml_dom_invalid).m_index = (j : Int)) →
      (∀ c ∈ cs, XmlDomIndexOk c) →
      XmlDomIndexOk (.mk t i n v cs)

/-- A parent with exactly two children, as built by two `add_child`
calls: child 0 and child 1 carry their positions in their index
fields. -/
def c2_child0 : XmlDomEntity := .mk .TAG 0 "a" "" []

/-- The second child (index 1) of `c2_parent`. -/
def c2_child1 : XmlDomEntity := .mk .TAG 1 "b" "" []

/-- The two-child parent used to exercise `next_child` and
`previous_child`. -/
def c2_parent : XmlDomEntity := .mk .DOCUMENT (-1) "" "" [c2_child0, c2_child1]

/-- A Document root holding one tag a with text value hi, built via
`add_tag` and value-setting — the round-trip claim's tree family. -/
def c6_tree : XmlDomEntity :=
  xml_dom_set_value_at (xml_dom_new_document.add_tag "a") [0] "hi"

/-- The text the serializer produces for `c6_tree`. -/
def c6_text : String := "<?xml version=\"1.0\"?>\n<a>hi\n</a>\n"

/-- Claim C8 (confirmed): parsing <a/> succeeds and fires exactly
BeginTag "a" followed by EndTag "a", in that order — no Attribute, Text
or Comment event; the /> branch fires EndTag and returns without
scanning any body. -/
theorem c8_self_close_events :
    xml_read_document 10 (xml_init "<a/>") =
      .ok () ⟨[], 0, 4⟩ [.beginTag "a", .endTag "a"] := by
  rfl

/-- Claim C4 counterexample: the event sequence the parse actually emits
is not the claimed one — the attribute values carry a trailing NUL, so
Attribute x "1" is never fired. -/
theorem c4_counterexample_events_differ :
    pres_events (xml_read_document 20 (xml_init "<a x=\"1\" y=\"2\">hi</a>")) =
      some [.beginTag "a", .attribute "x" "1\x00", .attribute "y" "2\x00",
            .text "hi", .endTag "a"] ∧
    ([XmlEvent.beginTag "a", XmlEvent.attribute "x" "1\x00", XmlEvent.attribute "y" "2\x00",
      XmlEvent.text "hi", XmlEvent.endTag "a"] : List XmlEvent) ≠
      [XmlEvent.beginTag "a", XmlEvent.attribute "x" "1", XmlEvent.attribute "y" "2",
       XmlEvent.text "hi", XmlEvent.endTag "a"] :=
  ⟨rfl, by decide⟩

/-- Claim C4 (corrected): parsing the two-attribute input succeeds and
fires the five events in the claimed order, but each attribute value the
callback receives is the quoted characters with a NUL character appended
(the `str.push_back(0)` of `xml_parse_string`), not exactly the
characters between the quotes as the claim states. -/
theorem c4_attribute_value_gains_nul :
    xml_read_document 20 (xml_init "<a x=\"1\" y=\"2\">hi</a>") =
      .ok () ⟨[], 0, 21⟩
        [.beginTag "a", .attribute "x" "1\x00", .attribute "y" "2\x00",
         .text "hi", .endTag "a"] ∧
    ("1\x00" : String) ≠ "1" :=
  ⟨rfl, by decide⟩

/-- Claim C3 (code bug): a header construct after the first top-level
construct is accepted, not rejected — the document driver's `first` flag
is never cleared, so `<a/><?xml version="1.0"?>` parses successfully
(the claim demands a SyntaxError); a header in first position is parsed
and accepted as claimed. -/
theorem c3_later_header_accepted :
    xml_read_document 50 (xml_init "<a/><?xml version=\"1.0\"?>") =
      .ok () ⟨[], 0, 25⟩ [.beginTag "a", .endTag "a"] ∧
    xml_read_document 50 (xml_init "<?xml version=\"1.0\"?><a/>") =
      .ok () ⟨[], 0, 25⟩ [.beginTag "a", .endTag "a"] :=
  ⟨rfl, rfl⟩

/-- Claim C2 (code bug): on a parent with children at indices 0 and 1,
`next_child` behaves as claimed (child 0 steps to child 1, the last child
yields the NULL sentinel), but `previous_child` is not its inverse: on
the last child it returns the NULL sentinel instead of child 0 (the
guard `m_index < num_children()-1` was copied from `next_child`), and on
child 0 it calls `get_child(-1)`, which fails `get_child`'s assertion,
instead of returning the NULL sentinel. -/
theorem c2_previous_child_wrong :
    c2_parent.next_child c2_child0 = .ok (some c2_child1) ∧
    c2_parent.next_child c2_child1 = .ok none ∧
    c2_parent.previous_child c2_child1 = .ok none ∧
    c2_parent.previous_child c2_child0 =
      .error "xml_dom_entity::get_child(): assertion failed: index >= 0 && index < num_children()" :=
  ⟨rfl, rfl, rfl, rfl⟩

/-- Claim C6 (code bug): the builder-made tree Document - Tag a with
value hi serializes to text whose reparse carries tag value
followed by a newline (the serializer writes the value then
`std::endl`, and the reparsed text runs to the next < marker), so the
round-tripped tree differs from the original in the tag's value. -/
theorem c6_roundtrip_value_changes :
    xml_dom_stream c6_tree = .ok c6_text ∧
    xml_dom_parse 50 c6_text =
      some (.mk .DOCUMENT (-1) "" "" [.mk .TAG 0 "a" "hi\n" []]) ∧
    c6_tree = .mk .DOCUMENT (-1) "" "" [.mk .TAG 0 "a" "hi" []] ∧
    ("hi\n" : String) ≠ "hi" :=
  ⟨rfl, rfl, rfl, by decide⟩

/-- Claim C10 counterexample: the parse of <a> succeeds (the body loop
exits at end of input without an EndTag) yet its event stream is not
balanced — one BeginTag and no EndTag — and after the driver completes
the builder stack holds the Document root plus the unclosed tag, not
exactly the root. -/
theorem c10_counterexample_unclosed_tag :
    xml_read_document 10 (xml_init "<a>") = .ok () ⟨[], 0, 3⟩ [.beginTag "a"] ∧
    xml_tag_stack [] [.beginTag "a"] = some ["a"] ∧
    (["a"] : List String) ≠ [] ∧
    xml_dom_build ⟨xml_dom_new_document, []⟩ [.beginTag "a"] =
      some ⟨.mk .DOCUMENT (-1) "" "" [.mk .TAG 0 "a" "" []], [0]⟩ ∧
    ([0] : List Nat) ≠ [] :=
  ⟨rfl, rfl, by decide, rfl, by decide⟩

/-- Claim C5 counterexample: the comment body a-b does not round through
as a-b — the lone hyphen is consumed as a tentative terminator and never
appended, so the Comment event carries ab. -/
theorem c5_counterexample_lone_hyphen_dropped :
    xml_read_comment (xml_init "<!--a-b-->") = .ok ("ab", ⟨[], 0, 10⟩) ∧
    ("ab" : String) ≠ "a-b" :=
  ⟨rfl, by decide⟩

/-- Pushing a character then appending is appending the character in
front of the remainder. -/
theorem string_push_append (a : String) (c : Char) (l : List Char) :
    a.push c ++ String.mk l = a ++ String.mk (c :: l) := by
  apply String.ext
  simp [String.data_append, String.data_push]

/-- Appending the empty character list is the identity. -/
theorem string_append_mk_nil (a : String) : a ++ String.mk [] = a := by
  apply String.ext
  simp [String.data_append]

/-- Prepending the empty string is the identity. -/
theorem string_mk_nil_append (l : List Char) : ("" : String) ++ String.mk l = String.mk l := by
  apply String.ext
  simp [String.data_append]

/-- The comment loop on a hyphen-free body appends every character
verbatim and the two-hyphen terminator then ends the comment, consuming
all three delimiter characters. -/
theorem xml_read_comment_go_no_hyphen :
    ∀ (cs : List Char) (acc : String) (l k : Int) (ds : List Char), '-' ∉ cs →
      ∃ l2 k2, xml_read_comment_go acc false (cs ++ '-' :: '-' :: '>' :: ds) l k =
        .ok (acc ++ String.mk cs, ⟨ds, l2, k2⟩) := by
  intro cs
  induction cs with
  | nil =>
    intro acc l k ds _
    refine ⟨l, k + 1 + 1 + 1, ?_⟩
    rw [string_append_mk_nil]
    rfl
  | cons c cs ih =>
    intro acc l k ds hnot
    have hc : (c = '-') = False := by
      simp only [eq_iff_iff, iff_false]
      intro h
      exact hnot (h ▸ List.mem_cons_self c cs)
    obtain ⟨l2, k2, h⟩ := ih (acc.push c) (if c = '\n' then l + 1 else l)
      (if c = '\n' then 0 else k + 1) ds (fun hm => hnot (List.mem_cons_of_mem c hm))
    refine ⟨l2, k2, ?_⟩
    simp only [List.cons_append, xml_read_comment_go, hc, decide_False, Bool.false_and,
      Bool.and_false, if_false, Bool.false_eq_true, if_neg, List.append_eq]
    rw [h, string_push_append]

/-- Claim C5 (corrected): every non-hyphen character of a comment body
is preserved verbatim, but a lone hyphen is consumed as a tentative
terminator and never appended, so it is dropped from the comment text:
the body a-b yields ab, and any hyphen-free body is returned exactly. -/
theorem c5_amended_hyphen_free_bodies_verbatim :
    (xml_read_comment (xml_init "<!--a-b-->") = .ok ("ab", ⟨[], 0, 10⟩)) ∧
    ∀ (cs ds : List Char) (l k : Int), '-' ∉ cs →
      ∃ l2 k2,
        xml_read_comment ⟨'<' :: '!' :: '-' :: '-' :: (cs ++ '-' :: '-' :: '>' :: ds), l, k⟩ =
          .ok (String.mk cs, ⟨ds, l2, k2⟩) := by
  refine ⟨rfl, ?_⟩
  intro cs ds l k h
  obtain ⟨l2, k2, hh⟩ := xml_read_comment_go_no_hyphen cs "" l (k + 1 + 1 + 1 + 1) ds h
  refine ⟨l2, k2, ?_⟩
  show xml_read_comment_go "" false (cs ++ '-' :: '-' :: '>' :: ds) l (k + 1 + 1 + 1 + 1) =
    .ok (String.mk cs, ⟨ds, l2, k2⟩)
  rw [hh, string_mk_nil_append]

/-- An alphabetic character is not whitespace. -/
theorem not_space_of_alpha (c : Char) (h : xml_is_alpha c = true) : xml_is_space c = false := by
  by_contra hs
  rw [Bool.not_eq_false] at hs
  simp only [xml_is_space, Bool.or_eq_true, beq_iff_eq] at hs
  rcases hs with ((((h1 | h1) | h1) | h1) | h1) | h1 <;> subst h1 <;> revert h <;> decide

/-- An alphabetic character is a valid name character. -/
theorem name_char_of_alpha (c : Char) (h : xml_is_alpha c = true) :
    xml_is_valid_name_char c = true := by
  simp [xml_is_valid_name_char, h]

/-- A valid name character is not a newline. -/
theorem name_char_ne_newline (c : Char) (h : xml_is_valid_name_char c = true) : ¬ c = '\n' := by
  intro hc
  subst hc
  revert h
  decide

/-- The name loop consumes exactly a maximal run of name characters,
appending them to the accumulator; the line number is unchanged (name
characters are never newlines). -/
theorem xml_read_name_go_run :
    ∀ (cs : List Char) (acc : String) (d : Char) (ds : List Char) (l k : Int),
      (∀ c ∈ cs, xml_is_valid_name_char c = true) → xml_is_valid_name_char d = false →
      ∃ k2, xml_read_name_go acc (cs ++ d :: ds) l k = (acc ++ String.mk cs, ⟨d :: ds, l, k2⟩) := by
  intro cs
  induction cs with
  | nil =>
    intro acc d ds l k _ hd
    refine ⟨k, ?_⟩
    rw [string_append_mk_nil]
    simp [xml_read_name_go, hd]
  | cons c cs ih =>
    intro acc d ds l k hall hd
    have hcv : xml_is_valid_name_char c = true := hall c (List.mem_cons_self c cs)
    have hcn : ¬ c = '\n' := name_char_ne_newline c hcv
    obtain ⟨k2, h⟩ := ih (acc.push c) d ds l (k + 1)
      (fun x hx => hall x (List.mem_cons_of_mem c hx)) hd
    refine ⟨k2, ?_⟩
    simp only [List.cons_append, xml_read_name_go, hcv, if_true, if_neg hcn, List.append_eq]
    rw [h, string_push_append]

/-- `xml_read_name` on a nonempty alphabetic run followed by a non-name
character returns exactly that run, leaving the stopper unread and the
line number unchanged. -/
theorem xml_read_name_run :
    ∀ (cs : List Char) (d : Char) (ds : List Char) (l k : Int), cs ≠ [] →
      (∀ c ∈ cs, xml_is_alpha c = true) → xml_is_valid_name_char d = false →
      ∃ k2, xml_read_name ⟨cs ++ d :: ds, l, k⟩ = .ok (String.mk cs, ⟨d :: ds, l, k2⟩) := by
  intro cs d ds l k hne hall hd
  match cs, hne with
  | c :: cs, _ =>
    have hca : xml_is_alpha c = true := hall c (List.mem_cons_self c cs)
    obtain ⟨k2, h⟩ := xml_read_name_go_run (c :: cs) "" d ds l k
      (fun x hx => name_char_of_alpha x (hall x hx)) hd
    refine ⟨k2, ?_⟩
    simp only [xml_read_name, List.cons_append, xml_eat_space, xml_eat_space_go,
      not_space_of_alpha c hca, Bool.false_eq_true, if_false, xml_peek, List.get?,
      hca, Bool.true_eq_false, List.append_eq]
    rw [List.cons_append] at h
    rw [h, string_mk_nil_append]

/-- `xml_read_closing_tag` on a literal closing tag with an alphabetic
name reads the name and consumes through the >, keeping the line
number. -/
theorem xml_read_closing_tag_run :
    ∀ (bs : List Char) (ds : List Char) (l k : Int), bs ≠ [] →
      (∀ c ∈ bs, xml_is_alpha c = true) →
      ∃ k2, xml_read_closing_tag ⟨'<' :: '/' :: (bs ++ '>' :: ds), l, k⟩ =
        .ok (String.mk bs, ⟨ds, l, k2⟩) := by
  intro bs ds l k hne hall
  obtain ⟨k2, h⟩ := xml_read_name_run bs '>' ds l (k + 1 + 1) hne hall (by decide)
  refine ⟨k2 + 1, ?_⟩
  show (match xml_read_name ⟨bs ++ '>' :: ds, l, k + 1 + 1⟩ with
        | Except.error e => Except.error e
        | Except.ok (name, s) =>
          match xml_match s '>' with
          | Except.error e => Except.error e
          | Except.ok s => Except.ok (name, s)) =
    Except.ok (String.mk bs, ⟨ds, l, k2 + 1⟩)
  rw [h]
  rfl

/-- The tag-name stack after a concatenation is the composition of the
stacks after each part. -/
theorem xml_tag_stack_append :
    ∀ (l1 l2 : List XmlEvent) (st : List String),
      xml_tag_stack st (l1 ++ l2) =
        (xml_tag_stack st l1).bind (fun st2 => xml_tag_stack st2 l2) := by
  intro l1
  induction l1 with
  | nil =>
    intro l2 st
    rfl
  | cons ev evs ih =>
    intro l2 st
    cases ev with
    | beginTag nm => exact ih l2 (nm :: st)
    | endTag nm =>
      cases st with
      | nil => rfl
      | cons t st2 =>
        show (if t = nm then xml_tag_stack st2 (evs ++ l2) else none) =
          (if t = nm then xml_tag_stack st2 evs else none).bind _
        rcases Decidable.em (t = nm) with h | h
        · rw [if_pos h, if_pos h]
          exact ih l2 st2
        · rw [if_neg h, if_neg h]
          rfl
    | text t => exact ih l2 st
    | comment c => exact ih l2 st
    | «attribute» nm v => exact ih l2 st

/-- The attribute loop fires only Attribute events while it iterates,
plus exactly one EndTag for its own tag when it leaves via the />
early-return: its event delta leaves any surrounding name stack
unchanged when it falls through to the body (result true), and pops
exactly its own tag when the tag self-closed (result false). -/
theorem xml_read_tag_attrs_stack :
    ∀ (fuel : Nat) (a : String) (s : XmlState) (r : Bool) (s2 : XmlState) (evs : List XmlEvent),
      xml_read_tag_attrs fuel a s = .ok r s2 evs →
      (r = true → ∀ st, xml_tag_stack st evs = some st) ∧
      (r = false → ∀ st, xml_tag_stack (a :: st) evs = some st) := by
  intro fuel
  induction fuel with
  | zero =>
    intro a s r s2 evs h
    exact PRes.noConfusion h
  | succ n ih =>
    intro a s r s2 evs h
    rw [xml_read_tag_attrs] at h
    split at h
    · -- end of input makes the while-condition fail
      injection h with h1 h2 h3
      subst h1
      subst h3
      exact ⟨fun _ st => rfl, fun hf => by cases hf⟩
    · dsimp only at h
      split at h
      · exact PRes.noConfusion h
      · split at h
        · -- an alphabetic character: read one attribute and loop
          split at h
          · exact PRes.noConfusion h
          · split at h
            · exact PRes.noConfusion h
            · split at h
              · exact PRes.noConfusion h
              · split at h
                · -- the recursive call returned ok
                  rename_i heq
                  injection h with h1 h2 h3
                  subst h1
                  subst h2
                  subst h3
                  obtain ⟨c1, c2⟩ := ih _ _ _ _ _ heq
                  exact ⟨fun hr st => c1 hr st, fun hr st => c2 hr st⟩
                · exact PRes.noConfusion h
                · exact PRes.noConfusion h
        · split at h
          · -- a bare > closes the opening tag; no event
            split at h
            · exact PRes.noConfusion h
            · injection h with h1 h2 h3
              subst h1
              subst h3
              exact ⟨fun _ st => rfl, fun hf => by cases hf⟩
          · split at h
            · split at h
              · exact PRes.noConfusion h
              · split at h
                · -- /> : fire EndTag and return
                  split at h
                  · exact PRes.noConfusion h
                  · split at h
                    · exact PRes.noConfusion h
                    · injection h with h1 h2 h3
                      subst h1
                      subst h3
                      refine ⟨(fun hf => by cases hf), fun _ st => ?_⟩
                      show (if a = a then xml_tag_stack st [] else none) = some st
                      rw [if_pos rfl]
                      rfl
                · -- / not followed by > : the loop spins
                  exact ih _ _ _ _ _ h
            · -- any other character: the loop spins
              exact ih _ _ _ _ _ h

/-- Joint specification of `xml_read_tag` and its body loop.  A
successful `xml_read_tag` appends an event delta that pushes some list
`opn` of still-open tag names onto any surrounding name stack without
ever popping past it, and `opn` is nonempty only when the parse stopped
at end of input with the tag unclosed.  A successful body loop for tag
`a` pops exactly `a` when it read the matching closing tag (result
true), and otherwise (result false, end of input) leaves `a` plus some
newly opened names on the stack. -/
theorem xml_read_tag_stack_spec :
    ∀ fuel : Nat,
      (∀ (s s2 : XmlState) (evs : List XmlEvent),
        xml_read_tag fuel s = .ok () s2 evs →
        ∃ opn, (∀ st, xml_tag_stack st evs = some (opn ++ st)) ∧
          (opn ≠ [] → s2.rest = [])) ∧
      (∀ (a : String) (s : XmlState) (r : Bool) (s2 : XmlState) (evs : List XmlEvent),
        xml_read_tag_body fuel a s = .ok r s2 evs →
        (r = true → ∀ st, xml_tag_stack (a :: st) evs = some st) ∧
        (r = false → s2.rest = [] ∧
          ∃ opn, ∀ st, xml_tag_stack (a :: st) evs = some (opn ++ (a :: st)))) := by
  intro fuel
  induction fuel with
  | zero =>
    exact ⟨fun s s2 evs h => PRes.noConfusion h,
      fun a s r s2 evs h => PRes.noConfusion h⟩
  | succ n ih =>
    obtain ⟨ihTag, ihBody⟩ := ih
    constructor
    · -- xml_read_tag at fuel n+1
      intro s s2 evs h
      rw [xml_read_tag] at h
      split at h
      · exact PRes.noConfusion h
      · split at h
        · exact PRes.noConfusion h
        · split at h
          · exact PRes.noConfusion h
          · exact PRes.noConfusion h
          · rename_i heqA
            obtain ⟨hA1, hA2⟩ := xml_read_tag_attrs_stack n _ _ _ _ _ heqA
            rename_i tag_name s3 hname xres body sB evsA
            split at h
            · -- the attribute loop fell through to the body loop
              rename_i hbody
              split at h
              · exact PRes.noConfusion h
              · exact PRes.noConfusion h
              · rename_i r2 s5 evsB heqB
                injection h with h1 h2 h3
                subst h2
                subst h3
                obtain ⟨hB1, hB2⟩ := ihBody _ _ _ _ _ heqB
                cases r2 with
                | true =>
                  refine ⟨[], fun st => ?_, fun hne => absurd rfl hne⟩
                  show xml_tag_stack (tag_name :: st) (evsA ++ evsB) = some ([] ++ st)
                  rw [xml_tag_stack_append, hA1 hbody]
                  simp only [Option.some_bind, List.nil_append]
                  exact hB1 rfl st
                | false =>
                  obtain ⟨hrest, opnB, hOpn⟩ := hB2 rfl
                  refine ⟨opnB ++ [tag_name], fun st => ?_, fun _ => hrest⟩
                  show xml_tag_stack (tag_name :: st) (evsA ++ evsB) =
                    some ((opnB ++ [tag_name]) ++ st)
                  rw [xml_tag_stack_append, hA1 hbody]
                  simp only [Option.some_bind]
                  rw [hOpn st]
                  congr 1
                  simp
            · -- the tag self-closed inside the attribute loop
              rename_i hbody
              rw [Bool.not_eq_true] at hbody
              injection h with h1 h2 h3
              subst h2
              subst h3
              refine ⟨[], fun st => ?_, fun hne => absurd rfl hne⟩
              show xml_tag_stack (tag_name :: st) evsA = some ([] ++ st)
              rw [List.nil_append]
              exact hA2 hbody st
    · -- xml_read_tag_body at fuel n+1
      intro a s r s2 evs h
      rw [xml_read_tag_body] at h
      split at h
      · -- end of input: the loop exits with the tag unclosed
        rename_i heof
        injection h with h1 h2 h3
        subst h1
        subst h2
        subst h3
        refine ⟨(fun hf => by cases hf), fun _ => ⟨?_, [], fun st => rfl⟩⟩
        rw [← List.isEmpty_iff]
        exact heof
      · dsimp only at h
        split at h
        · exact PRes.noConfusion h
        · split at h
          · -- lookahead <
            split at h
            · exact PRes.noConfusion h
            · split at h
              · -- lookahead </ : closing tag
                split at h
                · exact PRes.noConfusion h
                · split at h
                  · exact PRes.noConfusion h
                  · injection h with h1 h2 h3
                    subst h1
                    subst h2
                    subst h3
                    refine ⟨fun _ st => ?_, (fun hf => by cases hf)⟩
                    show (if a = a then xml_tag_stack st [] else none) = some st
                    rw [if_pos rfl]
                    rfl
              · split at h
                · -- lookahead <! : comment, then loop
                  split at h
                  · exact PRes.noConfusion h
                  · split at h
                    · exact PRes.noConfusion h
                    · exact PRes.noConfusion h
                    · rename_i heqB
                      injection h with h1 h2 h3
                      subst h1
                      subst h2
                      subst h3
                      obtain ⟨hB1, hB2⟩ := ihBody _ _ _ _ _ heqB
                      refine ⟨fun hr st => hB1 hr st, fun hr => ?_⟩
                      obtain ⟨hrest, opnB, hOpn⟩ := hB2 hr
                      exact ⟨hrest, opnB, fun st => hOpn st⟩
                · -- child tag, then loop
                  split at h
                  · exact PRes.noConfusion h
                  · exact PRes.noConfusion h
                  · rename_i sC evsC heqT
                    split at h
                    · exact PRes.noConfusion h
                    · exact PRes.noConfusion h
                    · rename_i r2 s5 evsB heqB
                      injection h with h1 h2 h3
                      subst h1
                      subst h2
                      subst h3
                      obtain ⟨opnC, hC, hCne⟩ := ihTag _ _ _ heqT
                      obtain ⟨hB1, hB2⟩ := ihBody _ _ _ _ _ heqB
                      cases opnC with
                      | nil =>
                        constructor
                        · intro hr st
                          rw [xml_tag_stack_append, hC (a :: st)]
                          simp only [List.nil_append, Option.some_bind]
                          exact hB1 hr st
                        · intro hr
                          obtain ⟨hrest, opnB, hOpn⟩ := hB2 hr
                          refine ⟨hrest, opnB, fun st => ?_⟩
                          rw [xml_tag_stack_append, hC (a :: st)]
                          simp only [List.nil_append, Option.some_bind]
                          exact hOpn st
                      | cons x xs =>
                        have hrest : sC.rest = [] := hCne (by simp)
                        cases n with
                        | zero => exact PRes.noConfusion heqB
                        | succ m =>
                          rw [xml_read_tag_body] at heqB
                          rw [hrest] at heqB
                          simp only [List.isEmpty_nil, if_true] at heqB
                          injection heqB with h1 h2 h3
                          subst h1
                          subst h2
                          subst h3
                          refine ⟨(fun hf => by cases hf), fun _ => ⟨hrest, x :: xs, fun st => ?_⟩⟩
                          rw [List.append_nil]
                          exact hC (a :: st)
          · -- free text, then loop
            split at h
            · exact PRes.noConfusion h
            · exact PRes.noConfusion h
            · rename_i r2 s5 evsB heqB
              injection h with h1 h2 h3
              subst h1
              subst h2
              subst h3
              obtain ⟨hB1, hB2⟩ := ihBody _ _ _ _ _ heqB
              refine ⟨fun hr st => hB1 hr st, fun hr => ?_⟩
              obtain ⟨hrest, opnB, hOpn⟩ := hB2 hr
              exact ⟨hrest, opnB, fun st => hOpn st⟩

/-- A successful document-loop run emits a stream whose name-stack
simulation never fails and only pushes: it leaves `opn` (the names of
tags left unclosed at end of input) on top of any surrounding stack. -/
theorem xml_read_document_loop_stack :
    ∀ (fuel : Nat) (first : Bool) (s s2 : XmlState) (evs : List XmlEvent),
      xml_read_document_loop fuel first s = .ok () s2 evs →
      ∃ opn, ∀ st, xml_tag_stack st evs = some (opn ++ st) := by
  intro fuel
  induction fuel with
  | zero =>
    intro first s s2 evs h
    exact PRes.noConfusion h
  | succ n ih =>
    intro first s s2 evs h
    rw [xml_read_document_loop] at h
    split at h
    · injection h with h1 h2 h3
      subst h3
      exact ⟨[], fun st => rfl⟩
    · split at h
      · exact PRes.noConfusion h
      · split at h
        · split at h
          · exact PRes.noConfusion h
          · split at h
            · -- header branch
              split at h
              · exact PRes.noConfusion h
              · split at h
                · exact PRes.noConfusion h
                · exact PRes.noConfusion h
                · exact ih _ _ _ _ h
            · split at h
              · -- top-level comment branch
                split at h
                · exact PRes.noConfusion h
                · split at h
                  · exact PRes.noConfusion h
                  · exact PRes.noConfusion h
                  · rename_i heq
                    injection h with h1 h2 h3
                    subst h3
                    obtain ⟨opn, hOpn⟩ := ih _ _ _ _ heq
                    exact ⟨opn, fun st => hOpn st⟩
              · split at h
                · -- top-level tag branch
                  split at h
                  · exact PRes.noConfusion h
                  · exact PRes.noConfusion h
                  · rename_i heqT
                    split at h
                    · exact PRes.noConfusion h
                    · exact PRes.noConfusion h
                    · rename_i heqR
                      injection h with h1 h2 h3
                      subst h3
                      obtain ⟨opnT, hT, _⟩ := (xml_read_tag_stack_spec n).1 _ _ _ heqT
                      obtain ⟨opnR, hR⟩ := ih _ _ _ _ heqR
                      refine ⟨opnR ++ opnT, fun st => ?_⟩
                      rw [xml_tag_stack_append, hT st]
                      simp only [Option.some_bind]
                      rw [hR (opnT ++ st), List.append_assoc]
                · -- unrecognised second character: the loop spins
                  exact ih _ _ _ _ h
        · exact PRes.noConfusion h

/-- The DOM builder consumes any event stream whose name-stack
simulation succeeds, never popping past the Document root, and finishes
with one stack entry above the root per name left open. -/
theorem xml_dom_build_stack :
    ∀ (evs : List XmlEvent) (st st2 : List String) (b : XmlDomBuilder),
      xml_tag_stack st evs = some st2 → b.path.length = st.length →
      ∃ b2, xml_dom_build b evs = some b2 ∧ b2.path.length = st2.length := by
  intro evs
  induction evs with
  | nil =>
    intro st st2 b h hl
    injection h with h1
    subst h1
    exact ⟨b, rfl, hl⟩
  | cons ev evs ih =>
    intro st st2 b h hl
    cases ev with
    | beginTag nm =>
      obtain ⟨b2, hb, hlen⟩ := ih (nm :: st) st2
        ⟨xml_dom_attach b.root b.path (.mk .TAG (-1) nm "" []),
         b.path ++ [xml_dom_child_count_at b.root b.path]⟩ h (by simp [hl])
      exact ⟨b2, hb, hlen⟩
    | endTag nm =>
      cases st with
      | nil => exact Option.noConfusion h
      | cons t st3 =>
        rcases Decidable.em (t = nm) with he | he
        · rw [show xml_tag_stack (t :: st3) (XmlEvent.endTag nm :: evs) =
            (if t = nm then xml_tag_stack st3 evs else none) from rfl, if_pos he] at h
          cases hp : b.path with
          | nil =>
            rw [hp] at hl
            simp at hl
          | cons p ps =>
            simp only [xml_dom_build, xml_dom_step, hp]
            obtain ⟨b2, hb, hlen⟩ := ih st3 st2 ⟨b.root, (p :: ps).dropLast⟩ h
              (by
                rw [hp] at hl
                simp only [List.length_cons] at hl
                simp only [List.length_dropLast, List.length_cons]
                omega)
            exact ⟨b2, hb, hlen⟩
        · rw [show xml_tag_stack (t :: st3) (XmlEvent.endTag nm :: evs) =
            (if t = nm then xml_tag_stack st3 evs else none) from rfl, if_neg he] at h
          exact Option.noConfusion h
    | text t =>
      obtain ⟨b2, hb, hlen⟩ := ih st st2
        ⟨xml_dom_set_value_at b.root b.path t, b.path⟩ h hl
      exact ⟨b2, hb, hlen⟩
    | comment c =>
      obtain ⟨b2, hb, hlen⟩ := ih st st2
        ⟨xml_dom_attach b.root b.path (.mk .COMMENT (-1) "" c []), b.path⟩ h hl
      exact ⟨b2, hb, hlen⟩
    | «attribute» nm v =>
      obtain ⟨b2, hb, hlen⟩ := ih st st2
        ⟨xml_dom_attach b.root b.path (.mk .ATTRIBUTE (-1) nm v []), b.path⟩ h hl
      exact ⟨b2, hb, hlen⟩

/-- Claim C10 (corrected): in every event stream of a successful parse
the BeginTag/EndTag events are properly nested — the name-stack
simulation neither underflows nor mismatches, so in every prefix the
EndTag events never outnumber the BeginTag events and each EndTag is the
one matching the innermost open BeginTag — and the DOM builder consumes
the stream without ever popping the Document root; however a parse can
succeed at end of input with unclosed tags, so after the driver
completes the builder stack holds the Document root plus one entry per
unclosed tag, which is exactly the root only when every tag was
closed. -/
theorem c10_nesting_and_builder_stack :
    ∀ (fuel : Nat) (buffer : String) (s2 : XmlState) (evs : List XmlEvent),
      xml_read_document fuel (xml_init buffer) = .ok () s2 evs →
      ∃ opn, xml_tag_stack [] evs = some opn ∧
        ∃ b2, xml_dom_build ⟨xml_dom_new_document, []⟩ evs = some b2 ∧
          b2.path.length = opn.length := by
  intro fuel buffer s2 evs h
  obtain ⟨opn, hOpn⟩ := xml_read_document_loop_stack fuel true _ s2 evs h
  have hnil : xml_tag_stack [] evs = some opn := by
    have h2 := hOpn []
    rwa [List.append_nil] at h2
  obtain ⟨b2, hb, hlen⟩ :=
    xml_dom_build_stack evs [] opn ⟨xml_dom_new_document, []⟩ hnil rfl
  exact ⟨opn, hnil, b2, hb, hlen⟩

/-- Witness: the nesting and builder-stack result instantiated on the
parse of <a/>, whose stream is balanced, so the final stack is exactly
the root. -/
theorem c10_nesting_witness :
    ∃ opn, xml_tag_stack [] [XmlEvent.beginTag "a", XmlEvent.endTag "a"] = some opn ∧
      ∃ b2, xml_dom_build ⟨xml_dom_new_document, []⟩
          [XmlEvent.beginTag "a", XmlEvent.endTag "a"] = some b2 ∧
        b2.path.length = opn.length :=
  c10_nesting_and_builder_stack 10 "<a/>" ⟨[], 0, 4⟩
    [XmlEvent.beginTag "a", XmlEvent.endTag "a"] (by rfl)

/-- Claim C7 (confirmed): parsing `<a></b>` fails with a SyntaxError
whose message names both the opening name a and the closing name b and
reports the line number; in general, whenever the body loop reads a
closing tag whose alphabetic name differs from the open tag's name, the
parse fails with exactly the error interpolating both names and the
current line number. -/
theorem c7_mismatched_close_error :
    (xml_read_document 20 (xml_init "<a></b>") =
      .error "xml_read_tag(), expected closing name (b) to match tag name (a) at input line 0\n") ∧
    ∀ (bs ds : List Char) (a : String) (l k : Int) (f : Nat), bs ≠ [] →
      (∀ c ∈ bs, xml_is_alpha c = true) → String.mk bs ≠ a →
      xml_read_tag_body (f + 1) a ⟨'<' :: '/' :: (bs ++ '>' :: ds), l, k⟩ =
        .error ("xml_read_tag(), expected closing name (" ++ String.mk bs
          ++ ") to match tag name (" ++ a ++ ") at input line " ++ toString l ++ "\n") := by
  refine ⟨rfl, ?_⟩
  intro bs ds a l k f hne hall hnea
  obtain ⟨k2, h⟩ := xml_read_closing_tag_run bs ds l k hne hall
  show (match xml_read_closing_tag ⟨'<' :: '/' :: (bs ++ '>' :: ds), l, k⟩ with
        | Except.error e => PRes.error e
        | Except.ok (close_name, s) =>
          if close_name ≠ a then
            PRes.error ("xml_read_tag(), expected closing name (" ++ close_name
              ++ ") to match tag name (" ++ a ++ ") at input line "
              ++ toString s.line_number ++ "\n")
          else PRes.ok true s [XmlEvent.endTag a]) =
      PRes.error ("xml_read_tag(), expected closing name (" ++ String.mk bs
        ++ ") to match tag name (" ++ a ++ ") at input line " ++ toString l ++ "\n")
  rw [h]
  simp only [if_pos hnea]

/-- Witness: the hyphen-free comment clause instantiated on the body x. -/
theorem c5_amended_witness :
    ∃ l2 k2,
      xml_read_comment ⟨'<' :: '!' :: '-' :: '-' :: (['x'] ++ '-' :: '-' :: '>' :: []), 0, 0⟩ =
        .ok (String.mk ['x'], ⟨[], l2, k2⟩) :=
  c5_amended_hyphen_free_bodies_verbatim.2 ['x'] [] 0 0 (by decide)

/-- Witness: the general mismatch clause instantiated on closing name b
against open tag a. -/
theorem c7_mismatched_close_error_witness :
    xml_read_tag_body 1 "a" ⟨'<' :: '/' :: (['b'] ++ '>' :: []), 0, 0⟩ =
      .error ("xml_read_tag(), expected closing name (" ++ String.mk ['b']
        ++ ") to match tag name (" ++ "a" ++ ") at input line "
        ++ toString (0 : Int) ++ "\n") :=
  c7_mismatched_close_error.2 ['b'] [] "a" 0 0 0 (by decide) (by decide) (by decide)

/-- `getD` of an appended last element at the old length. -/
theorem getD_append_last {α : Type} (l : List α) (x d : α) :
    (l ++ [x]).getD l.length d = x := by
  rw [List.getD_eq_getElem?_getD, List.getElem?_concat_length]
  rfl

/-- `getD` after `set` at the written (in-range) position. -/
theorem getD_set_self {α : Type} (l : List α) (i : Nat) (x d : α) (h : i < l.length) :
    (l.set i x).getD i d = x := by
  rw [List.getD_eq_getElem?_getD, List.getElem?_set_self h]
  rfl

/-- `getD` after `set` at a different position. -/
theorem getD_set_ne {α : Type} (l : List α) (i j : Nat) (x d : α) (h : i ≠ j) :
    (l.set i x).getD j d = l.getD j d := by
  rw [List.getD_eq_getElem?_getD, List.getElem?_set_ne h, ← List.getD_eq_getElem?_getD]

/-- Overwriting the index field does not touch anything else, and sets
the index. -/
theorem with_index_m_index (c : XmlDomEntity) (i : Int) : (c.with_index i).m_index = i := by
  cases c
  rfl

/-- A childless entity is index-consistent. -/
theorem index_ok_leaf (t : XmlDomEntityType) (i : Int) (n v : String) :
    XmlDomIndexOk (.mk t i n v []) := by
  constructor
  · intro j hj
    simp at hj
  · intro c hc
    simp at hc

/-- `with_index` preserves index consistency (it only touches the
entity's own index field, which its parent judges, not its subtree). -/
theorem index_ok_with_index (c : XmlDomEntity) (i : Int) (h : XmlDomIndexOk c) :
    XmlDomIndexOk (c.with_index i) := by
  cases h with
  | mk t j n v cs hidx hmem => exact XmlDomIndexOk.mk t i n v cs hidx hmem

/-- `add_child` appends exactly one element: the child with its index
field set to the old child count, i.e. to its new position. -/
theorem add_child_m_child (p c : XmlDomEntity) :
    (p.add_child c).m_child = p.m_child ++ [c.with_index (p.m_child.length : Int)] := by
  cases p
  rfl

/-- `add_child` preserves index consistency: the old children keep their
positions and the new child's index is set to the new last position. -/
theorem index_ok_add_child (p c : XmlDomEntity) (hp : XmlDomIndexOk p) (hc : XmlDomIndexOk c) :
    XmlDomIndexOk (p.add_child c) := by
  cases hp with
  | mk t i n v cs hidx hmem =>
    show XmlDomIndexOk (.mk t i n v (cs ++ [c.with_index (cs.length : Int)]))
    constructor
    · intro j hj
      rw [List.length_append, List.length_singleton] at hj
      rcases Nat.lt_or_ge j cs.length with h | h
      · rw [List.getD_append _ _ _ j h]
        exact hidx j h
      · have hj1 : j = cs.length := by omega
        subst hj1
        rw [getD_append_last]
        rw [with_index_m_index]
    · intro x hx
      rcases List.mem_append.mp hx with hx | hx
      · exact hmem x hx
      · rw [List.mem_singleton.mp hx]
        exact index_ok_with_index c _ hc

/-- Attaching deep in the tree does not change the root's own index
field. -/
theorem xml_dom_attach_m_index (p : XmlDomEntity) (path : List Nat) (c : XmlDomEntity) :
    (xml_dom_attach p path c).m_index = p.m_index := by
  cases path with
  | nil =>
    cases p
    rfl
  | cons idx rest =>
    cases p
    rfl

/-- Attaching a fresh index-consistent child at any builder path keeps
the whole tree index-consistent. -/
theorem index_ok_attach :
    ∀ (path : List Nat) (p c : XmlDomEntity), XmlDomIndexOk p → XmlDomIndexOk c →
      XmlDomIndexOk (xml_dom_attach p path c) := by
  intro path
  induction path with
  | nil =>
    intro p c hp hc
    cases p with
    | mk t i n v cs => exact index_ok_add_child _ c hp hc
  | cons idx rest ih =>
    intro p c hp hc
    cases hp with
    | mk t i n v cs hidx hmem =>
      show XmlDomIndexOk
        (.mk t i n v (cs.set idx (xml_dom_attach (cs.getD idx xml_dom_invalid) rest c)))
      rcases Nat.lt_or_ge idx cs.length with hlt | hge
      · constructor
        · intro j hj
          rw [List.length_set] at hj
          rcases Decidable.em (idx = j) with hji | hji
          · subst hji
            rw [getD_set_self _ _ _ _ hlt, xml_dom_attach_m_index]
            exact hidx idx hlt
          · rw [getD_set_ne _ _ _ _ _ hji]
            exact hidx j hj
        · intro x hx
          rcases List.mem_or_eq_of_mem_set hx with hx | hx
          · exact hmem x hx
          · rw [hx]
            refine ih (cs.getD idx xml_dom_invalid) c ?_ hc
            have hm : cs.getD idx xml_dom_invalid ∈ cs := by
              rw [List.getD_eq_getElem _ _ hlt]
              exact List.get_mem cs idx hlt
            exact hmem _ hm
      · rw [List.set_eq_of_length_le hge]
        exact XmlDomIndexOk.mk t i n v cs hidx hmem

/-- Setting a value at any builder path keeps the tree
index-consistent. -/
theorem index_ok_set_value_at :
    ∀ (path : List Nat) (p : XmlDomEntity) (value : String), XmlDomIndexOk p →
      XmlDomIndexOk (xml_dom_set_value_at p path value) := by
  intro path
  induction path with
  | nil =>
    intro p value hp
    cases hp with
    | mk t i n v cs hidx hmem => exact XmlDomIndexOk.mk t i n value cs hidx hmem
  | cons idx rest ih =>
    intro p value hp
    cases hp with
    | mk t i n v cs hidx hmem =>
      show XmlDomIndexOk
        (.mk t i n v (cs.set idx (xml_dom_set_value_at (cs.getD idx xml_dom_invalid) rest value)))
      rcases Nat.lt_or_ge idx cs.length with hlt | hge
      · constructor
        · intro j hj
          rw [List.length_set] at hj
          rcases Decidable.em (idx = j) with hji | hji
          · subst hji
            rw [getD_set_self _ _ _ _ hlt]
            have : (xml_dom_set_value_at (cs.getD idx xml_dom_invalid) rest value).m_index =
                (cs.getD idx xml_dom_invalid).m_index := by
              cases hrest : rest with
              | nil =>
                cases cs.getD idx xml_dom_invalid
                rfl
              | cons a b =>
                cases cs.getD idx xml_dom_invalid
                rfl
            rw [this]
            exact hidx idx hlt
          · rw [getD_set_ne _ _ _ _ _ hji]
            exact hidx j hj
        · intro x hx
          rcases List.mem_or_eq_of_mem_set hx with hx | hx
          · exact hmem x hx
          · rw [hx]
            refine ih (cs.getD idx xml_dom_invalid) value ?_
            have hm : cs.getD idx xml_dom_invalid ∈ cs := by
              rw [List.getD_eq_getElem _ _ hlt]
              exact List.get_mem cs idx hlt
            exact hmem _ hm
      · rw [List.set_eq_of_length_le hge]
        exact XmlDomIndexOk.mk t i n v cs hidx hmem

/-- Claim C9 (confirmed): a child's stored index always equals its
position in the parent's child sequence — `add_child` appends the child
at the end of the sequence with its index field set to the new last
position, and the invariant is preserved by `add_child`, `add_tag`,
`add_attribute`, `add_comment` and every DOM-builder callback (the
parent back-reference assignment is the structural fact that the child
is attached under the receiver). -/
theorem c9_index_invariant :
    (∀ (p c : XmlDomEntity),
        (p.add_child c).m_child = p.m_child ++ [c.with_index (p.m_child.length : Int)] ∧
        (c.with_index (p.m_child.length : Int)).m_index = (p.m_child.length : Int)) ∧
    (∀ (p c : XmlDomEntity), XmlDomIndexOk p → XmlDomIndexOk c →
        XmlDomIndexOk (p.add_child c)) ∧
    (∀ (p : XmlDomEntity) (name : String), XmlDomIndexOk p →
        XmlDomIndexOk (p.add_tag name)) ∧
    (∀ (p : XmlDomEntity) (name value : String), XmlDomIndexOk p →
        XmlDomIndexOk (p.add_attribute name value)) ∧
    (∀ (p : XmlDomEntity) (comment : String), XmlDomIndexOk p →
        XmlDomIndexOk (p.add_comment comment)) ∧
    (∀ (b : XmlDomBuilder) (ev : XmlEvent) (b2 : XmlDomBuilder), XmlDomIndexOk b.root →
        xml_dom_step b ev = some b2 → XmlDomIndexOk b2.root) := by
  refine ⟨fun p c => ⟨add_child_m_child p c, with_index_m_index c _⟩,
    index_ok_add_child, ?_, ?_, ?_, ?_⟩
  · intro p name hp
    exact index_ok_add_child p _ hp (index_ok_leaf _ _ _ _)
  · intro p name value hp
    exact index_ok_add_child p _ hp (index_ok_leaf _ _ _ _)
  · intro p comment hp
    exact index_ok_add_child p _ hp (index_ok_leaf _ _ _ _)
  · intro b ev b2 hb hs
    cases ev with
    | beginTag name =>
      simp only [xml_dom_step, Option.some.injEq] at hs
      rw [← hs]
      exact index_ok_attach b.path b.root _ hb (index_ok_leaf _ _ _ _)
    | endTag name =>
      cases hpath : b.path with
      | nil =>
        simp only [xml_dom_step, hpath] at hs
        cases hs
      | cons x xs =>
        simp only [xml_dom_step, hpath, Option.some.injEq] at hs
        rw [← hs]
        exact hb
    | text t =>
      simp only [xml_dom_step, Option.some.injEq] at hs
      rw [← hs]
      exact index_ok_set_value_at b.path b.root t hb
    | comment c =>
      simp only [xml_dom_step, Option.some.injEq] at hs
      rw [← hs]
      exact index_ok_attach b.path b.root _ hb (index_ok_leaf _ _ _ _)
    | «attribute» n v =>
      simp only [xml_dom_step, Option.some.injEq] at hs
      rw [← hs]
      exact index_ok_attach b.path b.root _ hb (index_ok_leaf _ _ _ _)

/-- Witness for the index invariant: instantiating it on the fresh
Document root with each operation. -/
theorem c9_index_invariant_witness :
    XmlDomIndexOk (xml_dom_new_document.add_tag "a") ∧
    XmlDomIndexOk (xml_dom_new_document.add_attribute "x" "1") ∧
    XmlDomIndexOk (xml_dom_new_document.add_comment "c") ∧
    XmlDomIndexOk ((xml_dom_new_document.add_tag "a").add_child c2_child0) :=
  ⟨c9_index_invariant.2.2.1 xml_dom_new_document "a" (index_ok_leaf _ _ _ _),
   c9_index_invariant.2.2.2.1 xml_dom_new_document "x" "1" (index_ok_leaf _ _ _ _),
   c9_index_invariant.2.2.2.2.1 xml_dom_new_document "c" (index_ok_leaf _ _ _ _),
   c9_index_invariant.2.1 _ c2_child0
     (c9_index_invariant.2.2.1 xml_dom_new_document "a" (index_ok_leaf _ _ _ _))
     (index_ok_leaf _ _ _ _)⟩

/-- On a < followed by a character that is neither ?, ! nor a letter the
document loop matches no branch and re-runs on an unchanged state: every
amount of fuel is exhausted, i.e. the C loop never terminates. -/
theorem xml_read_document_loop_stuck (first : Bool) :
    ∀ fuel, xml_read_document_loop fuel first ⟨['<', '+'], 0, 0⟩ = .oof := by
  intro fuel
  induction fuel with
  | zero => rfl
  | succ n ih =>
    simpa [xml_read_document_loop, xml_peek, xml_is_alpha, xml_eat_space,
      xml_eat_space_go, xml_is_space] using ih

/-- On a header body whose current character is neither alphabetic nor
the start of the ?> terminator, the header loop re-runs on an unchanged
state: every amount of fuel is exhausted. -/
theorem xml_read_header_loop_stuck :
    ∀ fuel, xml_read_header_loop fuel ⟨['+'], 0, 6⟩ = .oof := by
  intro fuel
  induction fuel with
  | zero => rfl
  | succ n ih =>
    simpa [xml_read_header_loop, xml_peek, xml_is_alpha, xml_eat_space,
      xml_eat_space_go, xml_is_space] using ih

/-- Claim C1 (code bug): the parse does not always terminate within the
input length — it does not terminate at all on the claim's own example
inputs.  On the two-character buffer <+ (a < followed by a character
that is not ?, ! or a letter) and on the buffer starting a header whose
body reaches a character that is neither alphabetic nor the ?>
terminator, `xml_read_document` exhausts every amount of fuel, i.e. the
C loops run forever. -/
theorem c1_parse_runs_forever :
    ∀ fuel, xml_read_document fuel (xml_init "<+") = .oof ∧
      xml_read_document fuel (xml_init "<?xml +") = .oof := by
  intro fuel
  refine ⟨xml_read_document_loop_stuck true fuel, ?_⟩
  match fuel with
  | 0 => rfl
  | 1 => rfl
  | m + 2 =>
    have h := xml_read_header_loop_stuck m
    show (match xml_read_header_loop m ⟨['+'], 0, 6⟩ with
          | PRes.error e => PRes.error e
          | PRes.oof => PRes.oof
          | PRes.ok _ s _ =>
            xml_read_document_loop (m + 1) true (xml_eat_space s)) = PRes.oof
    rw [h]

end SimpleXml
